import Mathlib

/- Shallow embedding of the 1-D hillslope / groundwater solver core of the
   workshop notebooks: the xsimlab processes Topography, Erosion, Geom,
   Uplift and Precipitation, the reusable integrate helper and the
   computeHydro water-table solver.

   Numpy 1-D arrays are modelled as Lean lists: over ℚ (exact arithmetic)
   for the sqrt-free parts, over ℝ where np.sqrt appears.  Out-of-range
   reads use List.getD with default 0; theorems carry the length
   hypotheses under which the Python code raises no IndexError.  In-place
   array mutation becomes explicit state passing. -/

/-- A parameter declared with dims=[(),'x'] in the notebooks: either a
single scalar or a per-node array (as fed to np.broadcast_to). -/
inductive ParamField where
  | scalar (v : ℚ)
  | perNode (vs : List ℚ)

/-- Embeds np.broadcast_to(field, n).flatten(): a scalar (or a length-1
array) is replicated to length n, a length-n array is returned as is, and
any other length is a broadcast error (modelled as none). -/
def broadcast_to : ParamField → ℕ → Option (List ℚ)
  | .scalar v, n => some (List.replicate n v)
  | .perNode vs, n =>
    if vs.length = n then some vs
    else if vs.length = 1 then some (List.replicate n (vs.headD 0))
    else none

/-- Embeds np.linspace(start, stop, num): num evenly spaced samples from
start to stop inclusive (num = 1 gives [start], num = 0 gives []). -/
def linspace (start stop : ℚ) (num : ℕ) : List ℚ :=
  if num = 1 then [start]
  else (List.range num).map
    (fun i : ℕ => start + (stop - start) * (i : ℚ) / ((num : ℚ) - 1))

/-- State produced by the Geom process: length L and initial elevation z. -/
structure GeomOut where
  L : ℚ
  z : List ℚ
deriving DecidableEq

/-- Embeds Geom's initialize method: self.L = self.length and
self.z = np.linspace(0, self.length, self.nx).  The declared input
slope is never read by the method; it is kept as an argument here exactly
because the notebook declares it as a process input.  Note the method
performs no validation of length or nx. -/
def Geom.setup (length slope : ℚ) (nx : ℕ) : GeomOut :=
  ⟨length, linspace 0 length nx⟩

/-- Embeds the dx computation of Erosion's initialize method:
self.dx = self.L / (len(self.surface) - 1). -/
def Erosion.setup_dx (L : ℚ) (surface : List ℚ) : ℚ :=
  L / ((surface.length : ℚ) - 1)

/-- The flux-form interior increment written into dtopo[1:-1] by Erosion's
run_step, at node i (valid for 1 ≤ i ≤ N-2):
dt/dx**2/2 * ((z[i-1]-z[i])*(kd[i-1]+kd[i]) - (z[i]-z[i+1])*(kd[i]+kd[i+1])). -/
def erosionInterior (surface kd_var : List ℚ) (dx dt : ℚ) (i : ℕ) : ℚ :=
  dt / dx ^ 2 / 2 *
    ((surface.getD (i - 1) 0 - surface.getD i 0) *
        (kd_var.getD (i - 1) 0 + kd_var.getD i 0) -
      (surface.getD i 0 - surface.getD (i + 1) 0) *
        (kd_var.getD i 0 + kd_var.getD (i + 1) 0))

/-- The dtopo array after Erosion's run_step body: interior nodes get the
flux-form increment, then dtopo[0] = 0, then dtopo[-1] = dtopo[-2]
(for N = 2 the copied value is the 0 just written at index 0). -/
def erosionDtopo (surface kd_var : List ℚ) (dx dt : ℚ) : List ℚ :=
  (List.range surface.length).map (fun i =>
    if i = 0 then 0
    else if i = surface.length - 1 then
      (if surface.length - 2 = 0 then 0
       else erosionInterior surface kd_var dx dt (surface.length - 2))
    else erosionInterior surface kd_var dx dt i)

/-- Embeds Erosion's run_step: broadcast kd to the surface shape, then
fill dtopo as in erosionDtopo. -/
def Erosion.run_step (kd : ParamField) (surface : List ℚ) (dx dt : ℚ) :
    Option (List ℚ) :=
  (broadcast_to kd surface.length).map (fun kd_var => erosionDtopo surface kd_var dx dt)

/-- Embeds Uplift's run_step: u_var = np.broadcast_to(rate, nx).flatten();
dtopo = dt * u_var; dtopo[0] = 0. -/
def Uplift.run_step (rate : ParamField) (nx : ℕ) (dt : ℚ) : Option (List ℚ) :=
  (broadcast_to rate nx).map (fun u_var => (u_var.map (fun v => dt * v)).set 0 0)

/-- One pass of the integrate loop counted down: integrateGo integ m
performs, for i = m, m-1, ..., 1, the update integ[i-1] += integ[i]
(state-passing form of the in-place loop
`for i in range(len(integ)-1, 0, -1)`). -/
def integrateGo (integ : List ℚ) : ℕ → List ℚ
  | 0 => integ
  | i + 1 => integrateGo (integ.set i (integ.getD i 0 + integ.getD (i + 1) 0)) i

/-- Embeds the integrate helper: integ = x.copy(); for i from len-1 down
to 1: integ[i-1] = integ[i-1] + integ[i]. -/
def integrate (x : List ℚ) : List ℚ :=
  integrateGo x (x.length - 1)

/-- Embeds Precipitation's run_step:
_rate = np.broadcast_to(rate, nx).flatten() * dx; integrated = integrate(_rate). -/
def Precipitation.run_step (rate : ParamField) (nx : ℕ) (dx : ℚ) :
    Option (List ℚ) :=
  (broadcast_to rate nx).map (fun r => integrate (r.map (fun v => v * dx)))

/-- Embeds Topography's run_step: elevation = elevation + sum(dtopo group)
(elementwise over the group of increment arrays), then
elevation[-1] = elevation[-2]. -/
def Topography.run_step (elevation : List ℚ) (dtopos : List (List ℚ)) : List ℚ :=
  let e := (List.range elevation.length).map
    (fun i => elevation.getD i 0 + (dtopos.map (fun d => d.getD i 0)).sum)
  e.set (elevation.length - 1) (e.getD (elevation.length - 2) 0)

noncomputable section

/-- The coefficient b of the water-table quadratic at node i:
b = -z[i] - z[i-1] + B[i] + B[i-1]. -/
def hydroB (B z : List ℝ) (i : ℕ) : ℝ :=
  -z.getD i 0 - z.getD (i - 1) 0 + B.getD i 0 + B.getD (i - 1) 0

/-- The coefficient c of the water-table quadratic at node i, given the
previous node's water-table height Hprev:
c = (z[i] + z[i-1] - B[i] - B[i-1] - H[i-1]) * H[i-1] - 2*dx*accum[i]/K. -/
def hydroC (B z accum : List ℝ) (dx K Hprev : ℝ) (i : ℕ) : ℝ :=
  (z.getD i 0 + z.getD (i - 1) 0 - B.getD i 0 - B.getD (i - 1) 0 - Hprev) * Hprev -
    2 * dx * accum.getD i 0 / K

/-- One iteration of the computeHydro loop body at node i ≥ 1:
H[i] = (-b + sqrt(b**2 - 4c)) / 2, then the two clamps
(if H[i] > z[i]: H[i] = z[i]; if H[i] < z[i] - B[i]: H[i] = z[i] - B[i]).
Real.sqrt returns the junk value 0 on negative input where np.sqrt
returns NaN; see the C2 theorems for that regime. -/
def hydroNext (B z accum : List ℝ) (dx K Hprev : ℝ) (i : ℕ) : ℝ :=
  let b := hydroB B z i
  let c := hydroC B z accum dx K Hprev i
  let h0 := (-b + Real.sqrt (b ^ 2 - 4 * c)) / 2
  let h1 := if h0 > z.getD i 0 then z.getD i 0 else h0
  if h1 < z.getD i 0 - B.getD i 0 then z.getD i 0 - B.getD i 0 else h1

/-- The water-table height at node i: H[0] = z[0] (from H = z.copy(), node
0 is never rewritten), and H[i+1] is computed from H[i] by the loop body. -/
def computeHydroH (B z accum : List ℝ) (dx K : ℝ) : ℕ → ℝ
  | 0 => z.getD 0 0
  | i + 1 => hydroNext B z accum dx K (computeHydroH B z accum dx K i) (i + 1)

/-- Embeds computeHydro: the returned water-table array H, of the same
length as z. -/
def computeHydro (B z accum : List ℝ) (dx K : ℝ) : List ℝ :=
  (List.range z.length).map (computeHydroH B z accum dx K)

/-- The discriminant b**2 - 4*c of the water-table quadratic at node i,
with H[i-1] taken from the recurrence (the quantity passed to np.sqrt). -/
def hydroDisc (B z accum : List ℝ) (dx K : ℝ) (i : ℕ) : ℝ :=
  hydroB B z i ^ 2 -
    4 * hydroC B z accum dx K (computeHydroH B z accum dx K (i - 1)) i

end

/- ------------------------------------------------------------------ -/
/- Helper lemmas on list indexing.                                     -/
/- ------------------------------------------------------------------ -/

theorem getD_map_range {α : Type} (f : ℕ → α) (d : α) {n i : ℕ} (h : i < n) :
    ((List.range n).map f).getD i d = f i := by
  rw [List.getD_eq_getElem?_getD, List.getElem?_map, List.getElem?_range h]
  rfl

theorem getD_replicate {α : Type} (v d : α) {n i : ℕ} (h : i < n) :
    (List.replicate n v).getD i d = v := by
  rw [List.getD_eq_getElem?_getD, List.getElem?_replicate_of_lt h]
  rfl

theorem getD_eq_zero {α : Type} {l : List α} {c : α} (h : ∀ x ∈ l, x = c) (i : ℕ) :
    l.getD i c = c := by
  rw [List.getD_eq_getElem?_getD]
  cases hx : l[i]? with
  | none => rfl
  | some a => exact h a (List.getElem?_mem hx)

theorem getD_nonneg {l : List ℝ} (h : ∀ x ∈ l, 0 ≤ x) (i : ℕ) : 0 ≤ l.getD i 0 := by
  rw [List.getD_eq_getElem?_getD]
  cases hx : l[i]? with
  | none => exact le_refl 0
  | some a => exact h a (List.getElem?_mem hx)

theorem getD_set_of_ne {α : Type} (l : List α) {m p : ℕ} (v d : α) (h : p ≠ m) :
    (l.set m v).getD p d = l.getD p d := by
  rw [List.getD_eq_getElem?_getD, List.getElem?_set_ne (fun he => h he.symm),
    List.getD_eq_getElem?_getD]

theorem getD_out_of_range {α : Type} (l : List α) {p : ℕ} (d : α)
    (h : l.length ≤ p) : l.getD p d = d := by
  rw [List.getD_eq_getElem?_getD, List.getElem?_eq_none h]
  rfl

theorem getD_set_update (l : List ℚ) (m : ℕ) :
    (l.set m (l.getD m 0 + l.getD (m + 1) 0)).getD m 0 =
      l.getD m 0 + l.getD (m + 1) 0 := by
  by_cases hm : m < l.length
  · rw [List.getD_eq_getElem?_getD, List.getElem?_set_self hm]
    rfl
  · push_neg at hm
    rw [getD_out_of_range _ _ (by simpa using hm),
      getD_out_of_range _ _ hm, getD_out_of_range _ _ (by omega)]
    norm_num

theorem getD_map_mul (r : List ℚ) (dx : ℚ) (j : ℕ) :
    (r.map (fun v => v * dx)).getD j 0 = r.getD j 0 * dx := by
  rw [List.getD_eq_getElem?_getD, List.getElem?_map, List.getD_eq_getElem?_getD]
  cases r[j]? <;> simp

theorem getD_map_mul_left (r : List ℚ) (c : ℚ) (j : ℕ) :
    (r.map (fun v => c * v)).getD j 0 = c * r.getD j 0 := by
  rw [List.getD_eq_getElem?_getD, List.getElem?_map, List.getD_eq_getElem?_getD]
  cases r[j]? <;> simp

theorem map_range_getD_self {α : Type} (l : List α) (d : α) :
    (List.range l.length).map (fun i => l.getD i d) = l := by
  apply List.ext_getElem
  · simp
  · intro i h1 h2
    simp only [List.getElem_map, List.getElem_range]
    rw [List.getD_eq_getElem?_getD, List.getElem?_eq_getElem h2]
    rfl

theorem broadcast_to_length {f : ParamField} {n : ℕ} {u : List ℚ}
    (h : broadcast_to f n = some u) : u.length = n := by
  cases f with
  | scalar v =>
    simp only [broadcast_to, Option.some.injEq] at h
    rw [← h, List.length_replicate]
  | perNode vs =>
    simp only [broadcast_to] at h
    split_ifs at h with h1 h2 <;> simp only [Option.some.injEq] at h
    · rw [← h, h1]
    · rw [← h, List.length_replicate]

theorem computeHydro_length (B z accum : List ℝ) (dx K : ℝ) :
    (computeHydro B z accum dx K).length = z.length := by
  simp [computeHydro]

/-- Characterization of the integrate loop tail: after the updates for
i = m, m-1, ..., 1 have run, entry p holds the partial sum of entries
p..m of the starting state for p ≤ m, and is untouched for p > m. -/
theorem integrateGo_getD (m : ℕ) : ∀ (integ : List ℚ) (p : ℕ),
    (integrateGo integ m).getD p 0 =
      if p ≤ m then ∑ j ∈ Finset.Icc p m, integ.getD j 0 else integ.getD p 0 := by
  induction m with
  | zero =>
    intro integ p
    by_cases hp : p = 0
    · subst hp
      simp [integrateGo]
    · rw [integrateGo, if_neg (by omega)]
  | succ m ih =>
    intro integ p
    rw [integrateGo, ih]
    have hm : (integ.set m (integ.getD m 0 + integ.getD (m + 1) 0)).getD m 0 =
        integ.getD m 0 + integ.getD (m + 1) 0 := getD_set_update integ m
    by_cases hpm : p ≤ m
    · rw [if_pos hpm, if_pos (by omega)]
      rw [Finset.sum_Icc_succ_top (by omega) (fun j => integ.getD j 0)]
      have hcong : ∀ j ∈ Finset.Icc p m,
          (integ.set m (integ.getD m 0 + integ.getD (m + 1) 0)).getD j 0 =
            integ.getD j 0 + (if j = m then integ.getD (m + 1) 0 else 0) := by
        intro j _
        by_cases hjm : j = m
        · subst hjm
          rw [hm, if_pos rfl]
        · rw [getD_set_of_ne _ _ _ hjm, if_neg hjm, add_zero]
      rw [Finset.sum_congr rfl hcong, Finset.sum_add_distrib,
        Finset.sum_ite_eq' (Finset.Icc p m) m (fun _ => integ.getD (m + 1) 0),
        if_pos (Finset.mem_Icc.mpr ⟨hpm, le_refl m⟩)]
    · by_cases hp1 : p = m + 1
      · subst hp1
        rw [if_pos (le_refl _), getD_set_of_ne _ _ _ (by omega)]
        simp
      · rw [if_neg (by omega), getD_set_of_ne _ _ _ (by omega), if_neg (by omega)]

/-- The integrate helper computes tail-to-head partial sums. -/
theorem integrate_getD (x : List ℚ) {p : ℕ} (hp : p < x.length) :
    (integrate x).getD p 0 = ∑ j ∈ Finset.Icc p (x.length - 1), x.getD j 0 := by
  rw [integrate, integrateGo_getD, if_pos (by omega)]

/- ------------------------------------------------------------------ -/
/- Claim theorems.                                                     -/
/- ------------------------------------------------------------------ -/

/-- C3: for every elevation profile z of length N ≥ 3, diffusivity field
kd broadcastable to N and step dt, Erosion's run_step produces dtopo with
dtopo[i] = dt/(2*dx^2) * ((z[i-1]-z[i])*(kd[i-1]+kd[i]) -
(z[i]-z[i+1])*(kd[i]+kd[i+1])) at every interior node i = 1..N-2,
dtopo[0] = 0, and dtopo[N-1] = dtopo[N-2]. -/
theorem erosion_run_step_formula (kd : ParamField) (z : List ℚ) (dx dt : ℚ)
    (kdv d : List ℚ) (hk : broadcast_to kd z.length = some kdv)
    (hd : Erosion.run_step kd z dx dt = some d) (hn : 3 ≤ z.length) :
    d.getD 0 0 = 0 ∧
    (∀ i, 1 ≤ i → i ≤ z.length - 2 →
      d.getD i 0 = dt / (2 * dx ^ 2) *
        ((z.getD (i - 1) 0 - z.getD i 0) * (kdv.getD (i - 1) 0 + kdv.getD i 0) -
          (z.getD i 0 - z.getD (i + 1) 0) * (kdv.getD i 0 + kdv.getD (i + 1) 0))) ∧
    d.getD (z.length - 1) 0 = d.getD (z.length - 2) 0 := by
  rw [Erosion.run_step, hk, Option.map_some', Option.some.injEq] at hd
  subst hd
  refine ⟨?_, ?_, ?_⟩
  · rw [erosionDtopo, getD_map_range _ _ (by omega), if_pos rfl]
  · intro i h1 h2
    rw [erosionDtopo, getD_map_range _ _ (by omega), if_neg (by omega),
      if_neg (by omega), erosionInterior]
    ring
  · rw [erosionDtopo, getD_map_range _ _ (by omega), getD_map_range _ _ (by omega),
      if_neg (by omega), if_pos rfl, if_neg (by omega), if_neg (by omega),
      if_neg (by omega)]

/-- Witness for C3: the N = 5 ramp z = [0,1,2,3,4] with kd = 1, dx = 1,
dt = 1/2; the interior node i = 2 increment matches the flux-form formula
(both sides evaluate to 0 on this linear profile). -/
theorem erosion_run_step_formula_witness :
    ([0, 0, 0, 0, 0] : List ℚ).getD 2 0 =
      (1 / 2 : ℚ) / (2 * 1 ^ 2) *
        ((([0, 1, 2, 3, 4] : List ℚ).getD 1 0 - ([0, 1, 2, 3, 4] : List ℚ).getD 2 0) *
            (([1, 1, 1, 1, 1] : List ℚ).getD 1 0 + ([1, 1, 1, 1, 1] : List ℚ).getD 2 0) -
          (([0, 1, 2, 3, 4] : List ℚ).getD 2 0 - ([0, 1, 2, 3, 4] : List ℚ).getD 3 0) *
            (([1, 1, 1, 1, 1] : List ℚ).getD 2 0 + ([1, 1, 1, 1, 1] : List ℚ).getD 3 0)) := by
  have hr : List.range 5 = [0, 1, 2, 3, 4] := by decide
  have h := erosion_run_step_formula (.scalar 1) [0, 1, 2, 3, 4] 1 (1 / 2)
    [1, 1, 1, 1, 1] [0, 0, 0, 0, 0] (by decide)
    (by norm_num [Erosion.run_step, broadcast_to, erosionDtopo, erosionInterior,
      hr, List.replicate])
    (by norm_num)
  exact h.2.1 2 (by norm_num) (by norm_num)

/-- C7: for every linear elevation profile (constant gradient s) and
constant (scalar) diffusivity, the diffusion increment at every interior
node is exactly zero. -/
theorem erosion_linear_profile_zero (a s k dx dt : ℚ) (z d : List ℚ)
    (hz : ∀ i < z.length, z.getD i 0 = a + s * i)
    (hd : Erosion.run_step (.scalar k) z dx dt = some d) :
    ∀ i, 1 ≤ i → i ≤ z.length - 2 → d.getD i 0 = 0 := by
  intro i h1 h2
  have hn : 3 ≤ z.length := by omega
  rw [Erosion.run_step, broadcast_to, Option.map_some', Option.some.injEq] at hd
  subst hd
  rw [erosionDtopo, getD_map_range _ _ (by omega), if_neg (by omega),
    if_neg (by omega), erosionInterior]
  rw [hz (i - 1) (by omega), hz i (by omega), hz (i + 1) (by omega),
    getD_replicate _ _ (by omega), getD_replicate _ _ (by omega),
    getD_replicate _ _ (by omega)]
  rw [Nat.cast_sub (by omega : 1 ≤ i)]
  push_cast
  ring

/-- Witness for C7: the ramp z = [0,1,2,3,4] (a = 0, s = 1) with k = 1,
dx = 1, dt = 1/2 gives a zero increment at interior node 2. -/
theorem erosion_linear_profile_zero_witness :
    ([0, 0, 0, 0, 0] : List ℚ).getD 2 0 = 0 := by
  have hr : List.range 5 = [0, 1, 2, 3, 4] := by decide
  exact erosion_linear_profile_zero 0 1 1 1 (1 / 2) [0, 1, 2, 3, 4] [0, 0, 0, 0, 0]
    (by intro i hi; norm_num at hi; interval_cases i <;> norm_num)
    (by norm_num [Erosion.run_step, broadcast_to, erosionDtopo, erosionInterior,
      hr, List.replicate])
    2 (by norm_num) (by norm_num)

/-- C5: for every rate field broadcastable to N and spacing dx, the
Precipitation integrator returns integrated[i] = sum over j >= i of
rate[j]*dx at every node i (rate[j] the broadcast rate). -/
theorem precipitation_run_step_integrated (rate : ParamField) (nx : ℕ) (dx : ℚ)
    (r integ : List ℚ) (hr : broadcast_to rate nx = some r)
    (hi : Precipitation.run_step rate nx dx = some integ) :
    ∀ i < nx, integ.getD i 0 = ∑ j ∈ Finset.Icc i (nx - 1), r.getD j 0 * dx := by
  rw [Precipitation.run_step, hr, Option.map_some', Option.some.injEq] at hi
  subst hi
  intro i hi2
  have hlen : (r.map (fun v => v * dx)).length = nx := by
    rw [List.length_map, broadcast_to_length hr]
  rw [integrate_getD _ (by omega), hlen]
  exact Finset.sum_congr rfl (fun j _ => getD_map_mul r dx j)

/-- Witness for C5: rate = [1,1,1,1], dx = 1 gives integrate result
[4,3,2,1]; the node-0 value matches the tail sum. -/
theorem precipitation_run_step_integrated_witness :
    ([4, 3, 2, 1] : List ℚ).getD 0 0 =
      ∑ j ∈ Finset.Icc 0 3, ([1, 1, 1, 1] : List ℚ).getD j 0 * 1 := by
  have h := precipitation_run_step_integrated (.perNode [1, 1, 1, 1]) 4 1
    [1, 1, 1, 1] [4, 3, 2, 1] (by decide)
    (by norm_num [Precipitation.run_step, broadcast_to, integrate, integrateGo])
  exact h 0 (by norm_num)

/-- C8: if every registered increment array is zero, the elevation after
one Topography step equals the elevation before the step at every node
except the last, which is overwritten with the second-to-last value. -/
theorem topography_zero_increments (elevation : List ℚ) (dtopos : List (List ℚ))
    (hlen : 2 ≤ elevation.length)
    (hz : ∀ d ∈ dtopos, ∀ x ∈ d, x = 0) :
    Topography.run_step elevation dtopos =
      elevation.set (elevation.length - 1) (elevation.getD (elevation.length - 2) 0) := by
  have hsum : ∀ i : ℕ, (dtopos.map (fun d => d.getD i 0)).sum = 0 := by
    intro i
    apply List.sum_eq_zero
    intro x hx
    obtain ⟨d, hd, rfl⟩ := List.mem_map.mp hx
    exact getD_eq_zero (hz d hd) i
  have he : (List.range elevation.length).map
      (fun i => elevation.getD i 0 + (dtopos.map (fun d => d.getD i 0)).sum) =
        elevation := by
    have hfun : (fun i => elevation.getD i 0 + (dtopos.map (fun d => d.getD i 0)).sum)
        = fun i => elevation.getD i 0 := by
      funext i
      rw [hsum, add_zero]
    rw [hfun, map_range_getD_self]
  simp only [Topography.run_step]
  rw [he]

/-- Witness for C8: elevation [1,2,3] with a single zero increment array
steps to [1,2,2] (only the forced right-boundary copy changes). -/
theorem topography_zero_increments_witness :
    Topography.run_step [1, 2, 3] [[0, 0, 0]] = [1, 2, 2] := by
  have h := topography_zero_increments [1, 2, 3] [[0, 0, 0]] (by norm_num) (by decide)
  rw [h]
  decide

/-- C9: for every uplift-rate field broadcastable to N and step dt, the
Uplift increment satisfies dtopo[i] = rate_broadcast[i]*dt at every node
i > 0 and dtopo[0] = 0. -/
theorem uplift_run_step_formula (rate : ParamField) (nx : ℕ) (dt : ℚ)
    (u d : List ℚ) (hu : broadcast_to rate nx = some u)
    (hd : Uplift.run_step rate nx dt = some d) :
    d.getD 0 0 = 0 ∧ ∀ i < nx, 0 < i → d.getD i 0 = u.getD i 0 * dt := by
  rw [Uplift.run_step, hu, Option.map_some', Option.some.injEq] at hd
  subst hd
  constructor
  · by_cases h0 : 0 < u.length
    · rw [List.getD_eq_getElem?_getD, List.getElem?_set_self (by simpa using h0)]
      rfl
    · have : u = [] := List.eq_nil_of_length_eq_zero (by omega)
      subst this
      rfl
  · intro i _ hpos
    rw [getD_set_of_ne _ _ _ (by omega), getD_map_mul_left, mul_comm]

/-- Witness for C9: rate = 2 (scalar) broadcast to 3 nodes, dt = 5 gives
dtopo = [0,10,10]; node 1 equals 2*5 and node 0 is forced to 0. -/
theorem uplift_run_step_formula_witness :
    ([0, 10, 10] : List ℚ).getD 0 0 = 0 ∧
    ([0, 10, 10] : List ℚ).getD 1 0 = ([2, 2, 2] : List ℚ).getD 1 0 * 5 := by
  have h := uplift_run_step_formula (.scalar 2) 3 5 [2, 2, 2] [0, 10, 10]
    (by decide) (by norm_num [Uplift.run_step, broadcast_to, List.replicate])
  exact ⟨h.1, h.2 1 (by norm_num) (by norm_num)⟩

theorem linspace_length (a b : ℚ) (n : ℕ) : (linspace a b n).length = n := by
  rw [linspace]
  split_ifs with h1
  · simp [h1]
  · simp

theorem linspace_zero_getD (length : ℚ) {nx : ℕ} (h2 : 2 ≤ nx) {i : ℕ} (hi : i < nx) :
    (linspace 0 length nx).getD i 0 = length * i / ((nx : ℚ) - 1) := by
  rw [linspace, if_neg (by omega), getD_map_range _ _ hi]
  ring

/-- C10: the declared grid input slope has no effect on any output: two
initializations of Geom differing only in slope are identical, and the
initial elevation is always the linear ramp from 0 to length. -/
theorem geom_slope_no_effect (length s1 s2 : ℚ) (nx : ℕ) :
    Geom.setup length s1 nx = Geom.setup length s2 nx ∧
    (2 ≤ nx → ∀ i < nx,
      (Geom.setup length s1 nx).z.getD i 0 = length * i / ((nx : ℚ) - 1)) := by
  exact ⟨rfl, fun h2 i hi => linspace_zero_getD length h2 hi⟩

/-- Witness for C10: with length 4 and nx = 5, slopes 1 and 2 give the same
state, whose node 1 sits at elevation 4*1/4 = 1. -/
theorem geom_slope_no_effect_witness :
    Geom.setup 4 1 5 = Geom.setup 4 2 5 ∧ (Geom.setup 4 1 5).z.getD 1 0 = 1 := by
  have h := geom_slope_no_effect 4 1 2 5
  refine ⟨h.1, ?_⟩
  rw [h.2 (by norm_num) 1 (by norm_num)]
  norm_num

/-- C4 fails on the code: construction with the invalid parameter
length = -1 (≤ 0) does not fail fast and no configuration error exists in
the code: Geom's initialize succeeds, producing the descending ramp
[0, -1/2, -1], Erosion's initialize then computes dx = -1/2, and the run
starts normally. -/
theorem geom_setup_invalid_succeeds :
    (Geom.setup (-1) 0 3).L = -1 ∧ (Geom.setup (-1) 0 3).z = [0, -1/2, -1] ∧
    Erosion.setup_dx (Geom.setup (-1) 0 3).L (Geom.setup (-1) 0 3).z = -1/2 := by
  have hr : List.range 3 = [0, 1, 2] := by decide
  refine ⟨rfl, ?_, ?_⟩
  · norm_num [Geom.setup, linspace, hr]
  · norm_num [Erosion.setup_dx, Geom.setup, linspace_length]

/-- C4 amended: initialization performs no parameter validation — it
always succeeds (the code has no error path) — and for every nx ≥ 2 and
every length, valid or not, it produces node positions linearly spaced
from 0 to length inclusive and dx = length/(nx-1). -/
theorem geom_setup_spec (length slope : ℚ) (nx : ℕ) (h2 : 2 ≤ nx) :
    (Geom.setup length slope nx).z.length = nx ∧
    (∀ i < nx, (Geom.setup length slope nx).z.getD i 0 = length * i / ((nx : ℚ) - 1)) ∧
    Erosion.setup_dx (Geom.setup length slope nx).L (Geom.setup length slope nx).z =
      length / ((nx : ℚ) - 1) := by
  refine ⟨linspace_length 0 length nx,
    fun i hi => linspace_zero_getD length h2 hi, ?_⟩
  show Erosion.setup_dx length (linspace 0 length nx) = _
  rw [Erosion.setup_dx, linspace_length]

/-- Witness for C4 amended: length 4, slope 7, nx = 5 gives 5 nodes,
node 2 at elevation 2, and dx = 1. -/
theorem geom_setup_spec_witness :
    (Geom.setup 4 7 5).z.length = 5 ∧ (Geom.setup 4 7 5).z.getD 2 0 = 2 ∧
    Erosion.setup_dx (Geom.setup 4 7 5).L (Geom.setup 4 7 5).z = 1 := by
  have h := geom_setup_spec 4 7 5 (by norm_num)
  refine ⟨h.1, ?_, ?_⟩
  · rw [h.2.1 2 (by norm_num)]
    norm_num
  · rw [h.2.2]
    norm_num

/-- C1: for every valid input (B, z, accum of equal length, dx ≥ 0,
nonnegative accum and B, conductivity K > 0), every node of the
water-table height returned by computeHydro satisfies
z[i] - B[i] ≤ H[i] ≤ z[i]. -/
theorem computeHydro_bounds (B z accum : List ℝ) (dx K : ℝ)
    (hK : 0 < K) (hdx : 0 ≤ dx)
    (haccum : ∀ x ∈ accum, 0 ≤ x) (hB : ∀ x ∈ B, 0 ≤ x)
    (hlB : B.length = z.length) (hlA : accum.length = z.length) :
    ∀ i < z.length,
      z.getD i 0 - B.getD i 0 ≤ (computeHydro B z accum dx K).getD i 0 ∧
      (computeHydro B z accum dx K).getD i 0 ≤ z.getD i 0 := by
  intro i hi
  rw [computeHydro, getD_map_range _ _ hi]
  cases i with
  | zero =>
    have hB0 : 0 ≤ B.getD 0 0 := getD_nonneg hB 0
    simp only [computeHydroH]
    constructor <;> linarith
  | succ j =>
    have hBj : 0 ≤ B.getD (j + 1) 0 := getD_nonneg hB (j + 1)
    simp only [computeHydroH, hydroNext]
    split_ifs <;> constructor <;> push_neg at * <;> linarith

/-- Witness for C1: B = [1,1], z = [5,5], accum = [0,1], dx = 1, K = 2;
the node-1 water table lies between 5 - 1 and 5. -/
theorem computeHydro_bounds_witness :
    (5 : ℝ) - 1 ≤ (computeHydro [1, 1] [5, 5] [0, 1] 1 2).getD 1 0 ∧
    (computeHydro [1, 1] [5, 5] [0, 1] 1 2).getD 1 0 ≤ 5 := by
  have h := computeHydro_bounds [1, 1] [5, 5] [0, 1] 1 2 (by norm_num) (by norm_num)
    (by norm_num) (by norm_num) rfl rfl 1 (by norm_num)
  simpa using h

/-- C6: for every valid input in which the regolith thickness B is
uniformly 0, computeHydro returns exactly the surface z. -/
theorem computeHydro_B_zero (B z accum : List ℝ) (dx K : ℝ)
    (hK : 0 < K) (hdx : 0 ≤ dx) (haccum : ∀ x ∈ accum, 0 ≤ x)
    (hB : ∀ x ∈ B, x = 0)
    (hlB : B.length = z.length) (hlA : accum.length = z.length) :
    computeHydro B z accum dx K = z := by
  have hpt : ∀ i, i < z.length → computeHydroH B z accum dx K i = z.getD i 0 := by
    intro i _
    cases i with
    | zero => simp only [computeHydroH]
    | succ j =>
      have hBj : B.getD (j + 1) 0 = 0 := getD_eq_zero hB (j + 1)
      simp only [computeHydroH, hydroNext, hBj, sub_zero]
      split_ifs <;> push_neg at * <;> linarith
  apply List.ext_getElem?
  intro i
  by_cases hi : i < z.length
  · rw [computeHydro, List.getElem?_map, List.getElem?_range hi, Option.map_some',
      hpt i hi, List.getD_eq_getElem?_getD, List.getElem?_eq_getElem hi]
    rfl
  · push_neg at hi
    have h1 : (computeHydro B z accum dx K)[i]? = none :=
      List.getElem?_eq_none (by rw [computeHydro_length]; omega)
    have h2 : z[i]? = none := List.getElem?_eq_none hi
    rw [h1, h2]

/-- Witness for C6: B = [0,0,0], z = [1,2,3], accum = [0,0,0], dx = 1,
K = 1 returns H = z = [1,2,3]. -/
theorem computeHydro_B_zero_witness :
    computeHydro [0, 0, 0] [1, 2, 3] [0, 0, 0] 1 1 = [1, 2, 3] :=
  computeHydro_B_zero [0, 0, 0] [1, 2, 3] [0, 0, 0] 1 1 (by norm_num) (by norm_num)
    (by norm_num) (by norm_num) rfl rfl

/-- C2 is false on the code: at B = [0,0], z = [0,0], accum = [0,-1],
dx = 1, K = 1 the discriminant at node 1 is -8 < 0, yet computeHydro
signals nothing and still returns a full-length result (in numpy, np.sqrt
merely emits a warning and yields NaN; no error aborts the run). -/
theorem computeHydro_negDisc_no_error :
    hydroDisc [0, 0] [0, 0] [0, -1] 1 1 1 < 0 ∧
    (computeHydro [0, 0] [0, 0] [0, -1] 1 1).length = 2 := by
  constructor
  · norm_num [hydroDisc, hydroB, hydroC, computeHydroH]
  · simp [computeHydro]

/-- C2 amended: when the discriminant b^2 - 4c is negative at some node,
computeHydro does not signal a domain error and does not abort: it still
returns a result of full length (whose entries from that node on are NaN
in floating point — Real.sqrt models the junk value as 0). -/
theorem computeHydro_negDisc_still_returns (B z accum : List ℝ) (dx K : ℝ)
    (i : ℕ) (hneg : hydroDisc B z accum dx K i < 0) :
    (computeHydro B z accum dx K).length = z.length := by
  simp [computeHydro]

/-- Witness for C2 amended: the negative-discriminant input above still
yields a length-2 result. -/
theorem computeHydro_negDisc_still_returns_witness :
    (computeHydro [0, 0] [0, 0] [0, -1] 1 1).length = 2 := by
  have h := computeHydro_negDisc_still_returns [0, 0] [0, 0] [0, -1] 1 1 1
    (by norm_num [hydroDisc, hydroB, hydroC, computeHydroH])
  simpa using h
